import Mathlib

/-!
Verification of the baodweb terminal layout engine (src/core/elements.py,
src/core/braillify.py, src/main.py) against its specification.

Styled terminal text is embedded shallowly as a list of tokens: an ANSI
escape sequence (always of zero display width) or a printable character
carrying its wcwidth display width.  The Python code tokenises strings with
the regex `\x1b\[[0-9;]*m`; here text arrives already tokenised, which is
exactly the result of that split for well-formed styled strings.  Machine
integers are embedded as Int (Python ints are unbounded); Python `//` on
possibly negative values is Int.fdiv (floor), `int(a/b)` is Int.div
(truncation toward zero), and `' ' * n` for possibly negative n is
`List.replicate n.toNat`.
-/

/-- A token of styled text: an ANSI escape sequence (zero visible width) or a
printable character `c` carrying its wcwidth display width `w`. -/
inductive Tok where
  | ansi (s : String)
  | ch (c : Char) (w : Nat)
deriving DecidableEq, Repr

/-- The ANSI reset code appended by `_wrap_cell` to every produced line. -/
def RESET : Tok := Tok.ansi "\x1b[0m"

/-- The bold style code (core/ansi.py BOLD). -/
def BOLD : Tok := Tok.ansi "\x1b[1m"

/-- Whether a token is an ANSI escape sequence. -/
def Tok.isAnsi : Tok → Bool
  | Tok.ansi _ => true
  | Tok.ch _ _ => false

/-- The display width contributed by one token: ANSI codes measure 0, a
character measures its wcwidth. -/
def tokW : Tok → Nat
  | Tok.ansi _ => 0
  | Tok.ch _ w => w

/-- Embeds `_visible_width`: strip the ANSI codes and sum the wcwidth of the
remaining characters (what `wcswidth` computes on the stripped string). -/
def visible_width (ts : List Tok) : Nat :=
  (ts.map tokW).sum

/-- The plain characters of a styled string, ANSI codes removed. -/
def stripAnsi (ts : List Tok) : String :=
  String.mk (ts.filterMap (fun t =>
    match t with
    | Tok.ansi _ => none
    | Tok.ch c _ => some c))

/-- An ASCII string as a token list; every ASCII printable character has
wcwidth 1. -/
def asciiToks (s : String) : List Tok :=
  s.data.map (fun c => Tok.ch c 1)

/-- `n` spaces (each of width 1). -/
def spacesN (n : Nat) : List Tok :=
  List.replicate n (Tok.ch ' ' 1)

/-- Python `' ' * n` for an int `n`: empty when `n` is negative. -/
def spacesI (n : Int) : List Tok :=
  spacesN n.toNat

theorem visible_width_append (a b : List Tok) :
    visible_width (a ++ b) = visible_width a + visible_width b := by
  simp [visible_width]

theorem visible_width_snoc_ansi (a : List Tok) (s : String) :
    visible_width (a ++ [Tok.ansi s]) = visible_width a := by
  simp [visible_width, tokW]

theorem visible_width_snoc_reset (a : List Tok) :
    visible_width (a ++ [RESET]) = visible_width a := by
  simp [visible_width, RESET, tokW]

theorem visible_width_snoc_ch (a : List Tok) (c : Char) (w : Nat) :
    visible_width (a ++ [Tok.ch c w]) = visible_width a + w := by
  simp [visible_width, tokW]

theorem visible_width_spacesN (n : Nat) : visible_width (spacesN n) = n := by
  simp [spacesN, visible_width, tokW]

theorem visible_width_spacesI (n : Int) : visible_width (spacesI n) = n.toNat := by
  simp [spacesI, visible_width_spacesN]

/-- The worker loop of `TableElement._wrap_cell`: walk tokens left to right
keeping the current line and its running visible width; a character that
would push the running width past `width` first flushes the current line
(with a trailing reset) and restarts from the initial ANSI codes; ANSI codes
are appended without affecting the width. -/
def wrap_cell_go (width : Nat) (initAnsi : List Tok) :
    List Tok → List Tok → Nat → List (List Tok) → List (List Tok)
  | [], cur, _, acc =>
      if cur.isEmpty then acc else acc ++ [cur ++ [RESET]]
  | Tok.ansi s :: rest, cur, curW, acc =>
      wrap_cell_go width initAnsi rest (cur ++ [Tok.ansi s]) curW acc
  | Tok.ch c w :: rest, cur, curW, acc =>
      if curW + w > width then
        wrap_cell_go width initAnsi rest (initAnsi ++ [Tok.ch c w]) w
          (acc ++ [cur ++ [RESET]])
      else
        wrap_cell_go width initAnsi rest (cur ++ [Tok.ch c w]) (curW + w) acc

/-- Embeds `TableElement._wrap_cell(text, width)`: hard character wrapping of a
styled string; every emitted line ends with a reset code, and continuation
lines restart with all ANSI codes found anywhere in the input
(`initial_ansi_codes = "".join(re.findall(ansi_escape, text))`). -/
def wrap_cell (text : List Tok) (width : Nat) : List (List Tok) :=
  wrap_cell_go width (text.filter Tok.isAnsi) text [] 0 []

theorem visible_width_filter_ansi (ts : List Tok) :
    visible_width (ts.filter Tok.isAnsi) = 0 := by
  induction ts with
  | nil => rfl
  | cons t rest ih =>
      cases t with
      | ansi s => simpa [visible_width, List.filter_cons, Tok.isAnsi, tokW] using ih
      | ch c w => simpa [visible_width, List.filter_cons, Tok.isAnsi] using ih

theorem wrap_cell_go_width_le (width : Nat) (initAnsi : List Tok)
    (hInit : visible_width initAnsi = 0) :
    ∀ (text cur : List Tok) (curW : Nat) (acc : List (List Tok)),
      visible_width cur = curW → curW ≤ width →
      (∀ t ∈ text, tokW t ≤ width) →
      (∀ l ∈ acc, visible_width l ≤ width) →
      ∀ l ∈ wrap_cell_go width initAnsi text cur curW acc, visible_width l ≤ width := by
  intro text
  induction text with
  | nil =>
      intro cur curW acc hcur hle _ hacc l hl
      simp only [wrap_cell_go] at hl
      by_cases hc : cur.isEmpty
      · rw [if_pos hc] at hl; exact hacc l hl
      · rw [if_neg hc] at hl
        rcases List.mem_append.1 hl with h | h
        · exact hacc l h
        · have : l = cur ++ [RESET] := List.mem_singleton.1 h
          subst this
          rw [visible_width_snoc_reset, hcur]; exact hle
  | cons t rest ih =>
      intro cur curW acc hcur hle htext hacc l hl
      cases t with
      | ansi s =>
          simp only [wrap_cell_go] at hl
          refine ih (cur ++ [Tok.ansi s]) curW acc ?_ hle ?_ hacc l hl
          · rw [visible_width_snoc_ansi, hcur]
          · intro t ht; exact htext t (List.mem_cons_of_mem _ ht)
      | ch c w =>
          have hw : w ≤ width := by
            have := htext (Tok.ch c w) (List.mem_cons_self _ _)
            simpa [tokW] using this
          simp only [wrap_cell_go] at hl
          by_cases hflush : curW + w > width
          · rw [if_pos hflush] at hl
            refine ih (initAnsi ++ [Tok.ch c w]) w (acc ++ [cur ++ [RESET]]) ?_ hw ?_ ?_ l hl
            · rw [visible_width_snoc_ch, hInit]; omega
            · intro t ht; exact htext t (List.mem_cons_of_mem _ ht)
            · intro l' hl'
              rcases List.mem_append.1 hl' with h | h
              · exact hacc l' h
              · have : l' = cur ++ [RESET] := List.mem_singleton.1 h
                subst this
                rw [visible_width_snoc_reset, hcur]; exact hle
          · rw [if_neg hflush] at hl
            refine ih (cur ++ [Tok.ch c w]) (curW + w) acc ?_ ?_ ?_ hacc l hl
            · rw [visible_width_snoc_ch, hcur]
            · omega
            · intro t ht; exact htext t (List.mem_cons_of_mem _ ht)

/-- C1 (amended): every line produced by `_wrap_cell(s, w)` has visible width
at most `w` — measured with the ANSI codes (including the trailing reset)
removed — PROVIDED every single character of `s` has visible width at most
`w`.  (A single character wider than the whole budget, e.g. a double-width
CJK character at `w = 1`, is emitted on a line of its own whose width exceeds
`w`; see the counterexample.) -/
theorem wrap_cell_lines_within_width (text : List Tok) (width : Nat)
    (hchars : ∀ t ∈ text, tokW t ≤ width) :
    ∀ l ∈ wrap_cell text width, visible_width l ≤ width := by
  refine wrap_cell_go_width_le width (text.filter Tok.isAnsi)
    (visible_width_filter_ansi text) text [] 0 [] rfl (Nat.zero_le _) hchars ?_
  intro l hl; cases hl

/-- C1 witness: the amended wrap invariant evaluated on the concrete input
"hello world" at width 5 (all characters have width 1 ≤ 5). -/
theorem wrap_cell_lines_within_width_witness :
    (∀ t ∈ asciiToks "hello world", tokW t ≤ 5) ∧
      ∀ l ∈ wrap_cell (asciiToks "hello world") 5, visible_width l ≤ 5 :=
  ⟨by decide, wrap_cell_lines_within_width (asciiToks "hello world") 5 (by decide)⟩

/-- C1 counterexample: wrapping the single double-width character U+4F60 at
width `w = 1` (a legal width, `w ≥ 1`) produces the lines `["", "你"]`
(resets removed), whose second line has visible width 2 > 1.  So the claim
"every line has visible width at most w for every w ≥ 1" is false as stated. -/
theorem wrap_cell_width1_counterexample :
    (wrap_cell [Tok.ch '你' 2] 1).map visible_width = [0, 2] ∧
      ¬ (∀ l ∈ wrap_cell [Tok.ch '你' 2] 1, visible_width l ≤ 1) := by
  constructor
  · decide
  · intro h
    have := h [Tok.ch '你' 2, RESET] (by decide)
    simp [visible_width, tokW, RESET] at this

/-- C6 counterexample: `_wrap_cell("hello world", 5)` does not return
`["hello", "world"]`: the wrapper breaks hard at the width budget and keeps
the space, producing `["hello", " worl", "d"]` (reset codes removed). -/
theorem wrap_cell_hello_world_counterexample :
    (wrap_cell (asciiToks "hello world") 5).map stripAnsi = ["hello", " worl", "d"] ∧
      (wrap_cell (asciiToks "hello world") 5).map stripAnsi ≠ ["hello", "world"] := by
  constructor
  · decide
  · decide

/-- C6 (amended): wrapping the unstyled string "hello world" to width 5
returns exactly the three lines "hello", " worl" and "d" (after removing the
appended reset codes): the wrap policy is a hard per-character break that
keeps spaces, not a space-aware break. -/
theorem wrap_cell_hello_world :
    (wrap_cell (asciiToks "hello world") 5).map stripAnsi = ["hello", " worl", "d"] := by
  decide

/-! ## Table layout engine (TableElement, src/core/elements.py lines 533-661)

A table cell arrives as its fully rendered styled text (`cell_texts` in the
source); headers is the list of header cell texts, rows the list of body
rows.  `max_width` is the width budget (terminal columns by default). -/

/-- `all_cells = [self.headers] + self.rows`. -/
def tableAllCells (headers : List (List Tok)) (rows : List (List (List Tok))) :
    List (List (List Tok)) :=
  headers :: rows

/-- `num_cols = max(len(row) for row in all_cells)` (the fold from 0 equals
the max of a non-empty list of naturals). -/
def tableNumCols (headers : List (List Tok)) (rows : List (List (List Tok))) : Nat :=
  (tableAllCells headers rows).foldl (fun m r => max m r.length) 0

/-- The natural content width of column `i`: the running maximum of the
visible widths of the cells at index `i` (0 when no row reaches column `i`),
exactly the `if width > column_widths[i]` update loop. -/
def tableColWidth (headers : List (List Tok)) (rows : List (List (List Tok)))
    (i : Nat) : Nat :=
  (tableAllCells headers rows).foldl
    (fun m row =>
      match row.get? i with
      | some cell => max m (visible_width cell)
      | none => m) 0

/-- `column_widths = [w + 2 for w in column_widths]`: natural column widths,
content plus 2 cells of padding. -/
def naturalColWidths (headers : List (List Tok)) (rows : List (List (List Tok))) :
    List Nat :=
  (List.range (tableNumCols headers rows)).map
    (fun i => tableColWidth headers rows i + 2)

/-- `total_width = sum(column_widths) + len(column_widths) + 1`: the natural
total rendered width, inner and outer border columns included. -/
def tableNaturalWidth (headers : List (List Tok)) (rows : List (List (List Tok))) :
    Nat :=
  (naturalColWidths headers rows).sum + tableNumCols headers rows + 1

/-- The proportional shrink of the negotiated column widths:
`max(min_col_width, int(w * available / sum(column_widths)))` with
`available = max_width - (len(column_widths) + 1)` and `min_col_width = 6`
(`int(...)` truncates toward zero, hence `Int.tdiv`; the Python float
division is exact at these magnitudes). -/
def shrunkWidths (headers : List (List Tok)) (rows : List (List (List Tok)))
    (maxWidth : Int) : List Nat :=
  let cw := naturalColWidths headers rows
  let available : Int := maxWidth - (cw.length + 1)
  cw.map (fun w => (max 6 (Int.tdiv ((w : Int) * available) (cw.sum : Int))).toNat)

/-- The negotiated column widths: shrink proportionally (with the 6-cell
floor) only when the natural total width exceeds the budget. -/
def negotiatedWidths (headers : List (List Tok)) (rows : List (List (List Tok)))
    (maxWidth : Int) : List Nat :=
  if (tableNaturalWidth headers rows : Int) > maxWidth then
    shrunkWidths headers rows maxWidth
  else
    naturalColWidths headers rows

/-- `make_border(left, mid, right, fill)` over the negotiated widths. -/
def tableMakeBorder (left mid right fill : Char) (ws : List Nat) : List Tok :=
  [Tok.ch left 1] ++
    List.intercalate [Tok.ch mid 1] (ws.map (fun w => List.replicate w (Tok.ch fill 1))) ++
    [Tok.ch right 1]

/-- The table's top border `make_border("╭", "┬", "╮", "─")`. -/
def tableTopBorder (ws : List Nat) : List Tok :=
  tableMakeBorder '╭' '┬' '╮' '─' ws

/-- The header separator `make_border("├", "┼", "┤", "─")`. -/
def tableMiddleBorder (ws : List Nat) : List Tok :=
  tableMakeBorder '├' '┼' '┤' '─' ws

/-- The table's bottom border `make_border("╰", "┴", "╯", "─")`. -/
def tableBottomBorder (ws : List Nat) : List Tok :=
  tableMakeBorder '╰' '┴' '╯' '─' ws

/-- One rendered cell fragment of a physical table line: one space, the
(possibly bold-wrapped) wrapped-cell line `txt`, then
`column_widths[i] - visible(txt) - 1` spaces (empty when negative). -/
def tableCellFragment (colW : Nat) (txt : List Tok) (isHeader enableColor : Bool) :
    List Tok :=
  let padLen : Int := (colW : Int) - (visible_width txt : Int) - 1
  [Tok.ch ' ' 1] ++
    (if isHeader && enableColor then [BOLD] ++ txt ++ [RESET] else txt) ++
    spacesI padLen

/-- Embeds `render_row(cells)`: wrap every cell to `column_widths[i] - 2`,
then emit one physical line per wrapped-line index up to the tallest cell,
missing wrapped lines of shorter cells reading as empty text. -/
def tableRenderRow (ws : List Nat) (cells : List (List Tok))
    (isHeader enableColor : Bool) : List (List Tok) :=
  let wrapped := cells.enum.map (fun p => wrap_cell p.2 (ws.getD p.1 0 - 2))
  let maxLines := wrapped.foldl (fun m l => max m l.length) 0
  (List.range maxLines).map (fun lineNum =>
    let lineCells := wrapped.enum.map (fun p =>
      tableCellFragment (ws.getD p.1 0) (p.2.getD lineNum []) isHeader enableColor)
    [Tok.ch '│' 1] ++ List.intercalate [Tok.ch '│' 1] lineCells ++ [Tok.ch '│' 1])

/-- The physical lines of `TableElement.render` (the non-empty case), with
the already negotiated column widths `ws`: top border, the header row and its
separator when headers exist, the body rows, bottom border. -/
def tableRenderLinesW (ws : List Nat) (headers : List (List Tok))
    (rows : List (List (List Tok))) (enableColor : Bool) : List (List Tok) :=
  [tableTopBorder ws] ++
    (if headers.isEmpty then []
     else tableRenderRow ws headers true enableColor ++ [tableMiddleBorder ws]) ++
    (rows.map (fun r => tableRenderRow ws r false enableColor)).flatten ++
    [tableBottomBorder ws]

/-- The physical lines of `TableElement.render` in the non-empty case. -/
def tableRenderLines (headers : List (List Tok)) (rows : List (List (List Tok)))
    (maxWidth : Int) (enableColor : Bool) : List (List Tok) :=
  tableRenderLinesW (negotiatedWidths headers rows maxWidth) headers rows enableColor

/-- The literal string a token renders to. -/
def tokStr : Tok → String
  | Tok.ansi s => s
  | Tok.ch c _ => String.singleton c

/-- A rendered line as the literal string it prints. -/
def lineStr (ts : List Tok) : String :=
  String.join (ts.map tokStr)

/-- Embeds `TableElement.render`: the empty string when both headers and rows
are empty (`if not self.headers and not self.rows: return ""`), otherwise the
bordered grid joined with newlines plus a trailing newline. -/
def tableRender (headers : List (List Tok)) (rows : List (List (List Tok)))
    (maxWidth : Int) (enableColor : Bool) : String :=
  if headers = [] ∧ rows = [] then ""
  else
    String.intercalate "\n" ((tableRenderLines headers rows maxWidth enableColor).map lineStr)
      ++ "\n"

/-- Scenario B headers `["A", "BB"]` (rendered cell texts, ASCII width 1). -/
def scenarioBHeaders : List (List Tok) := [asciiToks "A", asciiToks "BB"]

/-- Scenario B single body row `["1", "22"]`. -/
def scenarioBRows : List (List (List Tok)) := [[asciiToks "1", asciiToks "22"]]

/-- C3: whenever the natural total width exceeds the budget `max_width` (so
the proportional shrink runs), every negotiated column width is at least 6
cells — the `max(min_col_width, ...)` floor — even when the proportional
share would be smaller. -/
theorem table_shrink_floor (headers : List (List Tok)) (rows : List (List (List Tok)))
    (maxWidth : Int) (hshrink : (tableNaturalWidth headers rows : Int) > maxWidth) :
    ∀ w ∈ negotiatedWidths headers rows maxWidth, 6 ≤ w := by
  intro w hw
  rw [negotiatedWidths, if_pos hshrink] at hw
  simp only [shrunkWidths, List.mem_map] at hw
  obtain ⟨v, _, hv⟩ := hw
  have h6 : (6 : Int) ≤ max 6 (Int.tdiv ((v : Int) * (maxWidth - ((naturalColWidths headers rows).length + 1))) ((naturalColWidths headers rows).sum : Int)) :=
    le_max_left _ _
  subst hv
  omega

/-- C3 witness: a one-column table whose sole cell is 10 cells wide (natural
total width 14) against a budget of 5; the proportional share would be 3, the
negotiated width is the floor 6. -/
theorem table_shrink_floor_witness :
    6 ≤ (negotiatedWidths [asciiToks "AAAAAAAAAA"] [] 5).headI :=
  table_shrink_floor [asciiToks "AAAAAAAAAA"] [] 5 (by decide) _ (by decide)

/-- C5: for the table with headers "A", "BB" and one row "1", "22" under any
budget of at least its natural width 10 (so no shrinking), the negotiated
column widths are 3 and 4 (content plus 2 padding each) and every rendered
border and row line has total visible width 10 = 3 + 4 + 3 border columns. -/
theorem table_scenario_b (maxWidth : Int) (hmw : 10 ≤ maxWidth) :
    negotiatedWidths scenarioBHeaders scenarioBRows maxWidth = [3, 4] ∧
      ∀ l ∈ tableRenderLines scenarioBHeaders scenarioBRows maxWidth true,
        visible_width l = 10 := by
  have h10 : tableNaturalWidth scenarioBHeaders scenarioBRows = 10 := by decide
  have hno : ¬ ((tableNaturalWidth scenarioBHeaders scenarioBRows : Int) > maxWidth) := by
    rw [h10]; omega
  have hneg : negotiatedWidths scenarioBHeaders scenarioBRows maxWidth = [3, 4] := by
    rw [negotiatedWidths, if_neg hno]; decide
  refine ⟨hneg, ?_⟩
  intro l hl
  rw [tableRenderLines, hneg] at hl
  exact (by decide :
    ∀ l ∈ tableRenderLinesW [3, 4] scenarioBHeaders scenarioBRows true,
      visible_width l = 10) l hl

/-- C5 witness: scenario B at the concrete budget 100. -/
theorem table_scenario_b_witness :
    negotiatedWidths scenarioBHeaders scenarioBRows 100 = [3, 4] ∧
      ∀ l ∈ tableRenderLines scenarioBHeaders scenarioBRows 100 true,
        visible_width l = 10 :=
  table_scenario_b 100 (by norm_num)

/-- C9: `TableElement.render` returns the empty string exactly when both the
headers and the rows are empty; otherwise the rendered grid's first physical
line is the top border and its last is the bottom border, and the output ends
with a trailing newline (it is the line list joined by newlines plus "\n"). -/
theorem table_render_empty_iff (headers : List (List Tok)) (rows : List (List (List Tok)))
    (maxWidth : Int) (enableColor : Bool) :
    (tableRender headers rows maxWidth enableColor = "" ↔ headers = [] ∧ rows = []) ∧
      (¬ (headers = [] ∧ rows = []) →
        (tableRenderLines headers rows maxWidth enableColor).head? =
            some (tableTopBorder (negotiatedWidths headers rows maxWidth)) ∧
          (tableRenderLines headers rows maxWidth enableColor).getLast? =
            some (tableBottomBorder (negotiatedWidths headers rows maxWidth))) := by
  constructor
  · constructor
    · intro hemp
      by_contra hne
      rw [tableRender, if_neg hne] at hemp
      have hlen := congrArg String.length hemp
      rw [String.length_append] at hlen
      simp only [show ("\n").length = 1 from rfl,
        show ("" : String).length = 0 from rfl] at hlen
      omega
    · intro hcond
      rw [tableRender, if_pos hcond]
  · intro _
    constructor
    · simp [tableRenderLines, tableRenderLinesW, tableTopBorder]
    · rw [tableRenderLines, tableRenderLinesW]
      rw [show [tableTopBorder (negotiatedWidths headers rows maxWidth)] ++
            (if headers.isEmpty then []
             else tableRenderRow (negotiatedWidths headers rows maxWidth) headers true enableColor ++
               [tableMiddleBorder (negotiatedWidths headers rows maxWidth)]) ++
            (rows.map (fun r => tableRenderRow (negotiatedWidths headers rows maxWidth) r false enableColor)).flatten ++
            [tableBottomBorder (negotiatedWidths headers rows maxWidth)] =
          ([tableTopBorder (negotiatedWidths headers rows maxWidth)] ++
            (if headers.isEmpty then []
             else tableRenderRow (negotiatedWidths headers rows maxWidth) headers true enableColor ++
               [tableMiddleBorder (negotiatedWidths headers rows maxWidth)]) ++
            (rows.map (fun r => tableRenderRow (negotiatedWidths headers rows maxWidth) r false enableColor)).flatten) ++
            [tableBottomBorder (negotiatedWidths headers rows maxWidth)] from by simp]
      exact List.getLast?_concat _

/-! ## Box layout engine (Box, src/core/elements.py lines 13-381)

A Box arrives with its children already rendered to styled lines
(`rendered_child_lines` in the source: every child's render output, split on
newlines).  Geometry parameters mirror `Box.__init__` after its clamps
(`padding/margin = max(0, ·)`, hence Nat); a `start_x`/`start_y` of Python
`None` is coerced to 0 by `render` itself, so plain Int suffices. -/

/-- The outcome of `Box.__init__`: either constructed, or a raised
ValueError. -/
inductive InitResult where
  | ok
  | valueError (msg : String)
deriving DecidableEq, Repr

/-- Embeds the validation in `Box.__init__`: alignment is checked first, then
border style; anything else constructs the box. -/
def boxInitCheck (elementAlignment : String) (borderStyle : Int) : InitResult :=
  if ¬ (elementAlignment = "left" ∨ elementAlignment = "center" ∨ elementAlignment = "right") then
    InitResult.valueError "element_alignment must be left, center, or right."
  else if ¬ (borderStyle = 0 ∨ borderStyle = 1 ∨ borderStyle = 2) then
    InitResult.valueError "border_style must be 0 (none), 1 (thin), or 2 (thick)."
  else InitResult.ok

/-- The geometry and style parameters of a constructed Box. -/
structure BoxCfg where
  startX : Int := 0
  startY : Int := 0
  endX : Option Int := none
  endY : Option Int := none
  titleToks : List Tok := []
  alignment : String := "left"
  padX : Nat := 1
  padY : Nat := 0
  marginX : Nat := 0
  marginY : Nat := 0
  borderStyle : Nat := 1
  borderColorCode : String := "\x1b[37m"
deriving Repr

/-- `self.border_style in [1, 2]`. -/
def hasBorder (cfg : BoxCfg) : Bool :=
  cfg.borderStyle == 1 || cfg.borderStyle == 2

/-- `2 if self.border_style in [1, 2] else 0`: the rows/columns taken by the
two borders. -/
def borderPair (cfg : BoxCfg) : Int :=
  if hasBorder cfg then 2 else 0

/-- `total_horizontal_overhead = borders + 2 * padding_x`. -/
def boxTHO (cfg : BoxCfg) : Int :=
  borderPair cfg + 2 * (cfg.padX : Int)

/-- `min_box_width_required`, raised to fit the title plus its two spaces when
a title is present (`if self.box_title:`; an empty title is falsy). -/
def minBoxWidthRequired (cfg : BoxCfg) : Int :=
  if cfg.titleToks.isEmpty then boxTHO cfg
  else max (boxTHO cfg) ((visible_width cfg.titleToks : Int) + 2 + boxTHO cfg)

/-- `box_end_x` before clamping: the explicit `end_x` minus the right margin,
or the terminal's right edge minus the margin. -/
def boxEndX0 (cfg : BoxCfg) (tw : Int) : Int :=
  match cfg.endX with
  | some e => e - (cfg.marginX : Int)
  | none => tw - 1 - (cfg.marginX : Int)

/-- `box_start_x` after the `start > end` collapse and the `max(0, ·)`
clamp. -/
def boxStartX (cfg : BoxCfg) (tw : Int) : Int :=
  let s0 := cfg.startX + (cfg.marginX : Int)
  let e0 := boxEndX0 cfg tw
  max 0 (if s0 > e0 then e0 else s0)

/-- `box_width = box_end_x - box_start_x + 1` with
`box_end_x = min(terminal_width - 1, box_end_x)`. -/
def boxWidthInit (cfg : BoxCfg) (tw : Int) : Int :=
  min (tw - 1) (boxEndX0 cfg tw) - boxStartX cfg tw + 1

/-- Step 1 of `Box.render`: the maximum visible width over all rendered child
lines. -/
def maxChildContentWidth (childLines : List (List Tok)) : Nat :=
  childLines.foldl (fun m l => max m (visible_width l)) 0

/-- Step 2 of `Box.render`: the first `content_area_width`
(`max(box_width - overhead, max_child_content_width, min_required - overhead)`). -/
def contentAreaWidth0 (cfg : BoxCfg) (tw : Int) (mccw : Nat) : Int :=
  max (boxWidthInit cfg tw - boxTHO cfg)
    (max (mccw : Int)
      (if minBoxWidthRequired cfg > 0 then minBoxWidthRequired cfg - boxTHO cfg else 0))

/-- Step 2 continued: `(box_width, content_area_width)` after the
terminal-width clamp (`if box_start_x + box_width > terminal_width`). -/
def boxWidthCaw (cfg : BoxCfg) (tw : Int) (mccw : Nat) : Int × Int :=
  let caw := contentAreaWidth0 cfg tw mccw
  let bw := caw + boxTHO cfg
  if boxStartX cfg tw + bw > tw then
    let bw2 := tw - boxStartX cfg tw
    let caw2 := bw2 - boxTHO cfg
    (bw2, if caw2 < 0 then 0 else caw2)
  else (bw, caw)

/-- The final box width of the render. -/
def boxBW (cfg : BoxCfg) (tw : Int) (childLines : List (List Tok)) : Int :=
  (boxWidthCaw cfg tw (maxChildContentWidth childLines)).1

/-- The final content area width of the render. -/
def boxCaw (cfg : BoxCfg) (tw : Int) (childLines : List (List Tok)) : Int :=
  (boxWidthCaw cfg tw (maxChildContentWidth childLines)).2

/-- `box_width - total_horizontal_overhead` as used by the padding/truncation
comparisons of step 3. -/
def boxTarget (cfg : BoxCfg) (tw : Int) (childLines : List (List Tok)) : Int :=
  boxBW cfg tw childLines - boxTHO cfg

/-- The dynamic alignment pads of step 3: center splits the remainder (extra
space to the right), right pads entirely on the left, anything else (left)
adds none.  `//` on a non-negative value, hence fdiv. -/
def alignPads (alignment : String) (addPad : Int) : Int × Int :=
  if alignment = "center" then (Int.fdiv addPad 2, addPad - Int.fdiv addPad 2)
  else if alignment = "right" then (addPad, 0)
  else (0, 0)

/-- The ANSI-aware truncation loop of step 3: ANSI codes are copied, a
character is kept while the running width stays within `keep`, and the first
character that does not fit stops the whole loop (Python `break`), dropping
everything after it. -/
def truncGo (keep : Int) : List Tok → Int → List Tok
  | [], _ => []
  | Tok.ansi s :: rest, cw => Tok.ansi s :: truncGo keep rest cw
  | Tok.ch c w :: rest, cw =>
      if cw + (w : Int) ≤ keep then Tok.ch c w :: truncGo keep rest (cw + (w : Int))
      else []

/-- Step 3 of `Box.render` for one child line: static padding plus alignment
pads, then pad right up to `box_width - overhead` or ANSI-aware truncate down
to it. -/
def processLine (alignment : String) (padX : Nat) (caw target : Int)
    (line : List Tok) : List Tok :=
  let addPad := max 0 (caw - (visible_width line : Int))
  let p := alignPads alignment addPad
  let inner := spacesN padX ++ spacesI p.1 ++ line ++ spacesI p.2 ++ spacesN padX
  let innerW : Int := (visible_width inner : Int)
  if innerW < target then inner ++ spacesI (target - innerW)
  else if innerW > target then truncGo target inner 0
  else inner

/-- `processed_padded_lines`, including the fallback single blank row
(`[" " * content_area_width]`) when there are no child lines. -/
def processedLines (cfg : BoxCfg) (caw target : Int)
    (childLines : List (List Tok)) : List (List Tok) :=
  let p := childLines.map (processLine cfg.alignment cfg.padX caw target)
  if p.isEmpty then [spacesI caw] else p

/-- Step 4: `required_content_height = lines + 2 * padding_y`. -/
def requiredContentHeight (cfg : BoxCfg) (n : Nat) : Int :=
  (n : Int) + 2 * (cfg.padY : Int)

/-- Step 4: the box height before the `max(·, borders)` floor — content plus
border rows when `end_y` is inherited, else derived from the explicit
`end_y`. -/
def boxHeightRaw (cfg : BoxCfg) (n : Nat) : Int :=
  match cfg.endY with
  | none => requiredContentHeight cfg n + borderPair cfg
  | some ey => (ey - (cfg.marginY : Int)) - (cfg.startY + (cfg.marginY : Int)) + 1

/-- Step 4: the surplus vertical space split into top and bottom filler
(extra row to the bottom). -/
def boxVPads (cfg : BoxCfg) (n : Nat) : Int × Int :=
  let bh := max (boxHeightRaw cfg n) (borderPair cfg)
  let vcah := bh - borderPair cfg
  let rch := requiredContentHeight cfg n
  if vcah > rch then
    (Int.fdiv (vcah - rch) 2, (vcah - rch) - Int.fdiv (vcah - rch) 2)
  else (0, 0)

/-- `horizontal_fill_width = box_width - (2 if border else 0)`: the visible
width between the two vertical border glyphs. -/
def boxHfw (cfg : BoxCfg) (tw : Int) (childLines : List (List Tok)) : Int :=
  boxBW cfg tw childLines - borderPair cfg

/-- Step 5 re-padding of one content line to the full fill width. -/
def finalContentRow (h : Int) (line : List Tok) : List Tok :=
  line ++ spacesI (max 0 (h - (visible_width line : Int)))

/-- The inner rows of the box (everything between the vertical border
glyphs), tagged `true` for blank vertical-padding rows and `false` for
content rows. -/
def boxInnerPairs (cfg : BoxCfg) (tw : Int) (childLines : List (List Tok)) :
    List (Bool × List Tok) :=
  let caw := boxCaw cfg tw childLines
  let target := boxTarget cfg tw childLines
  let pls := processedLines cfg caw target childLines
  let h := boxHfw cfg tw childLines
  let vp := boxVPads cfg pls.length
  List.replicate (cfg.padY + vp.1.toNat) (true, spacesI h) ++
    pls.map (fun l => (false, finalContentRow h l)) ++
    List.replicate (cfg.padY + vp.2.toNat) (true, spacesI h)

/-- The emitted rows between the two vertical border glyphs. -/
def boxInnerRows (cfg : BoxCfg) (tw : Int) (childLines : List (List Tok)) :
    List (List Tok) :=
  (boxInnerPairs cfg tw childLines).map Prod.snd

/-- The vertical border glyph of the selected style ('' for style 0). -/
def vertToks (cfg : BoxCfg) : List Tok :=
  if cfg.borderStyle = 1 then [Tok.ch '│' 1]
  else if cfg.borderStyle = 2 then [Tok.ch '┃' 1]
  else []

/-- The horizontal border fill repeated `n` times ('' for style 0,
empty for negative n). -/
def horizRep (cfg : BoxCfg) (n : Int) : List Tok :=
  if cfg.borderStyle = 1 then List.replicate n.toNat (Tok.ch '─' 1)
  else if cfg.borderStyle = 2 then List.replicate n.toNat (Tok.ch '━' 1)
  else []

/-- A corner glyph of the selected style. -/
def cornerToks (cfg : BoxCfg) (thin thick : Char) : List Tok :=
  if cfg.borderStyle = 1 then [Tok.ch thin 1]
  else if cfg.borderStyle = 2 then [Tok.ch thick 1]
  else []

/-- Python `s[:k]` on the title for an int `k` (a negative `k` counts from
the end). -/
def pyTake (l : List Tok) (k : Int) : List Tok :=
  if 0 ≤ k then l.take k.toNat else l.take ((l.length : Int) + k).toNat

/-- The top border, with the centered title segment (truncated via the
`title_text[:...]` slice when it would overflow) when a title is present and
a border is drawn. -/
def boxTopBorder (cfg : BoxCfg) (h : Int) (bc rst : List Tok) : List Tok :=
  if !cfg.titleToks.isEmpty && hasBorder cfg then
    let titleW : Int := (visible_width cfg.titleToks : Int)
    let t2 := if titleW + 2 > h then pyTake cfg.titleToks (h - 2) else cfg.titleToks
    let left := Int.fdiv (h - (visible_width t2 : Int) - 2) 2
    let right := h - (visible_width t2 : Int) - 2 - left
    bc ++ cornerToks cfg '╭' '┏' ++ horizRep cfg left ++ [Tok.ch ' ' 1] ++ t2 ++
      [Tok.ch ' ' 1] ++ horizRep cfg right ++ cornerToks cfg '╮' '┓' ++ rst
  else
    bc ++ cornerToks cfg '╭' '┏' ++ horizRep cfg h ++ cornerToks cfg '╮' '┓' ++ rst

/-- The bottom border. -/
def boxBottomBorder (cfg : BoxCfg) (h : Int) (bc rst : List Tok) : List Tok :=
  bc ++ cornerToks cfg '╰' '┗' ++ horizRep cfg h ++ cornerToks cfg '╯' '┛' ++ rst

/-- The box's physical lines before margins: borders (when drawn) around the
inner rows, blank rows wrapped `color │ ... │ reset` and content rows
`color │ reset content color │ reset`, exactly as step 5 emits them. -/
def boxCoreLines (cfg : BoxCfg) (tw : Int) (childLines : List (List Tok))
    (enableColor : Bool) : List (List Tok) :=
  let bc := if enableColor then [Tok.ansi cfg.borderColorCode] else []
  let rst := if enableColor then [RESET] else []
  let h := boxHfw cfg tw childLines
  let assembled := (boxInnerPairs cfg tw childLines).map (fun p =>
    if p.1 then bc ++ vertToks cfg ++ p.2 ++ vertToks cfg ++ rst
    else bc ++ vertToks cfg ++ rst ++ p.2 ++ bc ++ vertToks cfg ++ rst)
  if hasBorder cfg then
    [boxTopBorder cfg h bc rst] ++ assembled ++ [boxBottomBorder cfg h bc rst]
  else assembled

/-- The final rendered block: the core lines wrapped in horizontal margins,
preceded and followed by `margin_y` all-space lines. -/
def boxFullLines (cfg : BoxCfg) (tw : Int) (childLines : List (List Tok))
    (enableColor : Bool) : List (List Tok) :=
  let marginRow := spacesI (boxBW cfg tw childLines + 2 * (cfg.marginX : Int))
  List.replicate cfg.marginY marginRow ++
    (boxCoreLines cfg tw childLines enableColor).map
      (fun l => spacesN cfg.marginX ++ l ++ spacesN cfg.marginX) ++
    List.replicate cfg.marginY marginRow

/-- Embeds `Box.render`: the final block joined with newlines plus a trailing
newline. -/
def boxRender (cfg : BoxCfg) (tw : Int) (childLines : List (List Tok))
    (enableColor : Bool) : String :=
  String.intercalate "\n" ((boxFullLines cfg tw childLines enableColor).map lineStr) ++ "\n"

theorem boxCaw_eq_max_target (cfg : BoxCfg) (tw : Int) (mccw : Nat) :
    (boxWidthCaw cfg tw mccw).2 = max ((boxWidthCaw cfg tw mccw).1 - boxTHO cfg) 0 := by
  rw [boxWidthCaw]
  by_cases hcl : boxStartX cfg tw + (contentAreaWidth0 cfg tw mccw + boxTHO cfg) > tw
  · rw [if_pos hcl]
    simp only
    omega
  · rw [if_neg hcl]
    simp only
    have h0 : 0 ≤ contentAreaWidth0 cfg tw mccw := by
      have : (mccw : Int) ≤ contentAreaWidth0 cfg tw mccw :=
        le_trans (le_max_left _ _) (le_max_right _ _)
      have := Int.ofNat_nonneg mccw
      omega
    omega

theorem truncGo_width (keep : Int) :
    ∀ (ts : List Tok) (cw : Int),
      (visible_width (truncGo keep ts cw) : Int) + cw ≤ max keep cw := by
  intro ts
  induction ts with
  | nil => intro cw; simp [truncGo, visible_width]
  | cons t rest ih =>
      intro cw
      cases t with
      | ansi s =>
          have := ih cw
          simp only [truncGo]
          have hv : visible_width (Tok.ansi s :: truncGo keep rest cw) =
              visible_width (truncGo keep rest cw) := by
            simp [visible_width, tokW]
          rw [hv]; exact this
      | ch c w =>
          simp only [truncGo]
          by_cases hfit : cw + (w : Int) ≤ keep
          · rw [if_pos hfit]
            have := ih (cw + (w : Int))
            have hv : visible_width (Tok.ch c w :: truncGo keep rest (cw + (w : Int))) =
                w + visible_width (truncGo keep rest (cw + (w : Int))) := by
              simp [visible_width, tokW]
            rw [hv]
            push_cast
            push_cast at this
            omega
          · rw [if_neg hfit]
            simp [truncGo, visible_width]

theorem processLine_width (alignment : String) (padX : Nat) (caw target : Int)
    (line : List Tok) :
    (visible_width (processLine alignment padX caw target line) : Int) ≤ max target 0 := by
  simp only [processLine]
  set inner := spacesN padX ++ spacesI (alignPads alignment (max 0 (caw - (visible_width line : Int)))).1 ++
      line ++ spacesI (alignPads alignment (max 0 (caw - (visible_width line : Int)))).2 ++
      spacesN padX with hinner
  by_cases hlt : (visible_width inner : Int) < target
  · rw [if_pos hlt]
    rw [visible_width_append, visible_width_spacesI]
    have : (target - (visible_width inner : Int)).toNat = target - (visible_width inner : Int) := by
      omega
    omega
  · rw [if_neg hlt]
    by_cases hgt : (visible_width inner : Int) > target
    · rw [if_pos hgt]
      have := truncGo_width target inner 0
      omega
    · rw [if_neg hgt]
      omega

theorem processedLines_width (cfg : BoxCfg) (target : Int)
    (childLines : List (List Tok)) :
    ∀ l ∈ processedLines cfg (max target 0) target childLines,
      (visible_width l : Int) ≤ max target 0 := by
  intro l hl
  simp only [processedLines] at hl
  by_cases hemp : (childLines.map (processLine cfg.alignment cfg.padX (max target 0) target)).isEmpty
  · rw [if_pos hemp] at hl
    have : l = spacesI (max target 0) := List.mem_singleton.1 hl
    subst this
    rw [visible_width_spacesI]
    omega
  · rw [if_neg hemp] at hl
    obtain ⟨x, _, hx⟩ := List.mem_map.1 hl
    subst hx
    exact processLine_width cfg.alignment cfg.padX (max target 0) target x

theorem finalContentRow_width (h : Int) (line : List Tok)
    (hline : (visible_width line : Int) ≤ max h 0) :
    visible_width (finalContentRow h line) = h.toNat := by
  rw [finalContentRow, visible_width_append, visible_width_spacesI]
  omega

/-- C2: every row `Box.render` emits between the two vertical border glyphs —
the blank vertical-padding rows and every processed content row, padding
spaces included — has visible width exactly the box's computed inner width
`horizontal_fill_width = box_width - borders` (0 in the degenerate case of a
box narrower than its own borders), for every geometry, alignment, padding
and border style. -/
theorem box_inner_rows_width (cfg : BoxCfg) (tw : Int) (childLines : List (List Tok))
    (row : List Tok) (hrow : row ∈ boxInnerRows cfg tw childLines) :
    visible_width row = (boxHfw cfg tw childLines).toNat := by
  rw [boxInnerRows, boxInnerPairs] at hrow
  simp only [List.map_append, List.map_replicate, List.map_map] at hrow
  have hcaw : boxCaw cfg tw childLines = max (boxTarget cfg tw childLines) 0 := by
    rw [boxCaw, boxTarget, boxBW]
    exact boxCaw_eq_max_target cfg tw (maxChildContentWidth childLines)
  have htarget_le : boxTarget cfg tw childLines ≤ boxHfw cfg tw childLines := by
    rw [boxTarget, boxHfw, boxTHO]
    have : (0 : Int) ≤ 2 * (cfg.padX : Int) := by positivity
    omega
  rcases List.mem_append.1 hrow with h1 | h2
  · rcases List.mem_append.1 h1 with ha | hb
    · have := List.eq_of_mem_replicate ha
      subst this
      rw [visible_width_spacesI]
    · obtain ⟨x, hx, hxe⟩ := List.mem_map.1 hb
      have hxw : (visible_width x : Int) ≤ max (boxTarget cfg tw childLines) 0 := by
        rw [hcaw] at hx
        exact processedLines_width cfg (boxTarget cfg tw childLines) childLines x hx
      have hxw2 : (visible_width x : Int) ≤ max (boxHfw cfg tw childLines) 0 := by
        have : max (boxTarget cfg tw childLines) 0 ≤ max (boxHfw cfg tw childLines) 0 :=
          max_le_max htarget_le (le_refl 0)
        omega
      simp only [Function.comp] at hxe
      rw [← hxe]
      exact finalContentRow_width (boxHfw cfg tw childLines) x hxw2
  · have := List.eq_of_mem_replicate h2
    subst this
    rw [visible_width_spacesI]

set_option maxRecDepth 8192 in
/-- C2 witness: the default box (thin border, padding 1) on an 80-column
terminal with one child line "hi": the single content row, evaluated
concretely, has visible width exactly the computed fill width 78. -/
theorem box_inner_rows_width_witness :
    visible_width ((boxInnerRows { } 80 [asciiToks "hi"]).headI) =
      (boxHfw { } 80 [asciiToks "hi"]).toNat :=
  box_inner_rows_width { } 80 [asciiToks "hi"] _ (by decide)

/-- C7: `Box.__init__` raises a ValueError exactly when `element_alignment`
is outside {left, center, right} or `border_style` is outside {0, 1, 2};
construction succeeds (no fallback coercion, no exception) for every value
inside those sets. -/
theorem box_init_check_ok_iff (elementAlignment : String) (borderStyle : Int) :
    boxInitCheck elementAlignment borderStyle = InitResult.ok ↔
      ((elementAlignment = "left" ∨ elementAlignment = "center" ∨ elementAlignment = "right") ∧
        (borderStyle = 0 ∨ borderStyle = 1 ∨ borderStyle = 2)) := by
  rw [boxInitCheck]
  split_ifs with h1 h2
  · simp_all
  · simp_all
  · simp_all

theorem borderPair_nonneg (cfg : BoxCfg) : 0 ≤ borderPair cfg := by
  rw [borderPair]; split <;> norm_num

theorem requiredContentHeight_nonneg (cfg : BoxCfg) (n : Nat) :
    0 ≤ requiredContentHeight cfg n := by
  rw [requiredContentHeight]; positivity

theorem boxVPads_endY_none (cfg : BoxCfg) (n : Nat) (h : cfg.endY = none) :
    boxVPads cfg n = (0, 0) := by
  have hb := borderPair_nonneg cfg
  have hr := requiredContentHeight_nonneg cfg n
  simp only [boxVPads, boxHeightRaw, h]
  rw [max_eq_left (by omega)]
  rw [if_neg (by omega)]

/-- C10: for a Box whose children render to no lines at all, the processed
content collapses to exactly one blank row of `content_area_width` spaces,
the render output is never the empty string, and — with a thin or thick
border and no explicit `end_y` — the block before margins has exactly
`3 + 2*padding_y` lines: top border, the vertically padded blank content row,
bottom border. -/
theorem box_empty_children_render (cfg : BoxCfg) (tw : Int) (enableColor : Bool) :
    processedLines cfg (boxCaw cfg tw []) (boxTarget cfg tw []) [] =
        [spacesI (boxCaw cfg tw [])] ∧
      boxRender cfg tw [] enableColor ≠ "" ∧
      (hasBorder cfg = true ∧ cfg.endY = none →
        (boxCoreLines cfg tw [] enableColor).length = 3 + 2 * cfg.padY) := by
  refine ⟨by simp [processedLines], ?_, ?_⟩
  · intro heq
    rw [boxRender] at heq
    have hlen := congrArg String.length heq
    rw [String.length_append] at hlen
    simp only [show ("\n").length = 1 from rfl,
      show ("" : String).length = 0 from rfl] at hlen
    omega
  · rintro ⟨hborder, hy⟩
    rw [boxCoreLines]
    simp only [hborder, if_pos]
    rw [List.length_append, List.length_append, List.length_singleton,
      List.length_singleton, List.length_map]
    rw [boxInnerPairs, boxVPads_endY_none cfg _ hy]
    simp only [processedLines, List.map_nil, List.isEmpty_nil, if_pos]
    rw [List.length_append, List.length_append]
    simp only [List.length_replicate, List.length_map, List.length_singleton,
      Int.toNat_zero]
    omega

/-- C10 witness: the default thin-border box (padding_y = 0, no end_y) with
no children on an 80-column terminal renders exactly 3 core lines and a
non-empty string. -/
theorem box_empty_children_render_witness :
    boxRender { } 80 [] true ≠ "" ∧
      (boxCoreLines { } 80 [] true).length = 3 + 2 * ({ } : BoxCfg).padY :=
  ⟨(box_empty_children_render { } 80 true).2.1,
    (box_empty_children_render { } 80 true).2.2 ⟨by decide, rfl⟩⟩

/-! ## Anchor ids (Anchor.__init__, src/core/elements.py lines 390-398;
Browser.load_content, src/main.py lines 1062-1063)

`Anchor.__init__` reads the shared counter `next_anchor_id[0]`, registers
itself in `current_anchors` under that id, and increments the counter;
`Browser.load_content` resets the registry to `{}` and the counter to `[1]`
before parsing each document. -/

/-- One constructed Anchor node. -/
structure AnchorData where
  text : String
  href : String
  anchorId : Nat
deriving DecidableEq, Repr

/-- The document-level anchor session: the id → anchor registry and the
mutable counter `next_anchor_id[0]`. -/
structure AnchorState where
  currentAnchors : List (Nat × AnchorData)
  nextAnchorId : Nat
deriving Repr

/-- Embeds `Anchor.__init__(text, href, current_anchors, next_anchor_id)`:
the new anchor takes the current counter value as its id, is registered under
that id, and the counter is incremented by one. -/
def anchorInit (text href : String) (s : AnchorState) : AnchorData × AnchorState :=
  let a : AnchorData := { text := text, href := href, anchorId := s.nextAnchorId }
  (a, { currentAnchors := s.currentAnchors ++ [(s.nextAnchorId, a)],
        nextAnchorId := s.nextAnchorId + 1 })

/-- Embeds the reset in `Browser.load_content`: `self._current_anchors = {}`
and `self._next_anchor_id = [1]` at the start of each navigation. -/
def loadContentResetAnchors (_s : AnchorState) : AnchorState :=
  { currentAnchors := [], nextAnchorId := 1 }

/-- Constructing the document's Anchor nodes one after another in
construction order, threading the session state. -/
def buildAnchors (items : List (String × String)) (s : AnchorState) :
    List AnchorData × AnchorState :=
  match items with
  | [] => ([], s)
  | (t, h) :: rest =>
      let p := anchorInit t h s
      let q := buildAnchors rest p.2
      (p.1 :: q.1, q.2)

/-- The ids assigned to a document's anchors, in construction order, after a
navigation reset. -/
def anchorIdsAfterReset (items : List (String × String)) (s : AnchorState) : List Nat :=
  (buildAnchors items (loadContentResetAnchors s)).1.map AnchorData.anchorId

theorem buildAnchors_ids (items : List (String × String)) :
    ∀ s : AnchorState,
      (buildAnchors items s).1.map AnchorData.anchorId =
        List.range' s.nextAnchorId items.length := by
  induction items with
  | nil => intro s; simp [buildAnchors]
  | cons p rest ih =>
      intro s
      obtain ⟨t, h⟩ := p
      simp only [buildAnchors, anchorInit, List.map_cons, List.length_cons,
        List.range'_succ]
      exact congrArg (List.cons s.nextAnchorId) (ih _)

theorem range'_pairwise_lt (n : Nat) : ∀ s : Nat, (List.range' s n).Pairwise (· < ·) := by
  induction n with
  | zero => intro s; simp
  | succ k ih =>
      intro s
      rw [List.range'_succ]
      refine List.Pairwise.cons ?_ (ih (s + 1))
      intro b hb
      have := List.mem_range'_1.1 hb
      omega

/-- C4: within one document render, the anchor ids assigned in construction
order after the navigation reset are exactly 1, 2, ..., n — strictly
increasing and pairwise distinct — because each new Anchor takes the current
counter value, the counter then increases by exactly 1, and the navigation
reset restores the counter to 1 and empties the registry. -/
theorem anchor_ids_unique_increasing (items : List (String × String)) (s : AnchorState)
    (text href : String) (st : AnchorState) :
    anchorIdsAfterReset items s = List.range' 1 items.length ∧
      (anchorIdsAfterReset items s).Pairwise (· < ·) ∧
      (anchorIdsAfterReset items s).Nodup ∧
      (anchorInit text href st).1.anchorId = st.nextAnchorId ∧
      (anchorInit text href st).2.nextAnchorId = st.nextAnchorId + 1 ∧
      (loadContentResetAnchors st).nextAnchorId = 1 ∧
      (loadContentResetAnchors st).currentAnchors = [] := by
  have hids : anchorIdsAfterReset items s = List.range' 1 items.length := by
    rw [anchorIdsAfterReset, buildAnchors_ids items (loadContentResetAnchors s)]
    rfl
  refine ⟨hids, ?_, ?_, rfl, rfl, rfl, rfl⟩
  · rw [hids]; exact range'_pairwise_lt items.length 1
  · rw [hids]
    exact (range'_pairwise_lt items.length 1).imp Nat.ne_of_lt

/-! ## Glyph rasterizer (src/core/braillify.py)

The bitmap is a list of rows of 0/1 pixels.  The font (`core/font.py`, data
only) is abstracted as a partial map from characters to glyph bitmaps: none
of the padded dimensions depend on the glyph contents. -/

/-- `braille_lookup`: the sub-cell → bit mask table. -/
def brailleLookup : List (List Nat) := [[1, 8], [2, 16], [4, 32], [64, 128]]

/-- Embeds `to_braille_block(block)`: OR the masks of the lit pixels of a
4×2 block and offset into the Unicode braille range. -/
def toBrailleBlock (block : List (List Nat)) : Char :=
  let bits := (List.range 4).foldl (fun b y =>
    (List.range 2).foldl (fun b2 x =>
      if (block.getD y []).getD x 0 ≠ 0 then
        b2 ||| ((brailleLookup.getD y []).getD x 0)
      else b2) b) 0
  Char.ofNat (0x2800 + bits)

/-- The maximum row length of the bitmap (`max(len(row) for row in bitmap)
if h else 0`). -/
def brailleW0 (bitmap : List (List Nat)) : Nat :=
  bitmap.foldl (fun m r => max m r.length) 0

/-- Height rounded up to the next multiple of 4
(`h += 4 - h % 4` when `h % 4 != 0`). -/
def padH4 (h : Nat) : Nat :=
  if h % 4 = 0 then h else h + (4 - h % 4)

/-- Width rounded up to the next multiple of 2 (`w += 1` when odd). -/
def padW2 (w : Nat) : Nat :=
  if w % 2 = 0 then w else w + 1

/-- The padding phase of `render_braille_bitmap`: extend every row to the
common width, append zero rows up to a multiple-of-4 height, append a zero
column when the width is odd. -/
def paddedBitmap (bitmap : List (List Nat)) : List (List Nat) :=
  let w := brailleW0 bitmap
  let b1 := bitmap.map (fun row => row ++ List.replicate (w - row.length) 0)
  let b2 :=
    if bitmap.length % 4 = 0 then b1
    else b1 ++ List.replicate (4 - bitmap.length % 4) (List.replicate w 0)
  if w % 2 = 0 then b2 else b2.map (fun r => r ++ [0])

/-- Embeds `render_braille_bitmap`: after padding, one output line per 4
bitmap rows, one braille character (optionally wrapped in a color code) per 2
bitmap columns. -/
def renderBrailleLines (bitmap : List (List Nat))
    (colorFunc : Option (Nat → Nat → Nat)) : List (List String) :=
  let b := paddedBitmap bitmap
  let h := padH4 bitmap.length
  let w := padW2 (brailleW0 bitmap)
  (List.range (h / 4)).map (fun rowIdx =>
    (List.range (w / 2)).map (fun colIdx =>
      let block := (List.range 4).map (fun y =>
        (List.range 2).map (fun x => (b.getD (4 * rowIdx + y) []).getD (2 * colIdx + x) 0))
      let c := toBrailleBlock block
      match colorFunc with
      | some f =>
          "\x1b[38;5;" ++ toString (f rowIdx colIdx) ++ "m" ++ String.singleton c ++ "\x1b[0m"
      | none => String.singleton c))

/-- A font as `braillify` uses it: `selected_font.get(ch)`. -/
def Font : Type := Char → Option (List (List Nat))

/-- Embeds the glyph placement loop of `braillify`:
`bitmap[y][x_off + x] = glyph[y][x]` for `y < letter_h`, `x < letter_w`
(in-place row updates become `List.set`, which never changes a length). -/
def placeGlyph (bitmap : List (List Nat)) (glyph : List (List Nat))
    (xOff letterH letterW : Nat) : List (List Nat) :=
  (List.range letterH).foldl (fun bm y =>
    (List.range letterW).foldl (fun bm2 x =>
      bm2.set y ((bm2.getD y []).set (xOff + x) ((glyph.getD y []).getD x 0))) bm) bitmap

/-- One text line of `braillify` as a bitmap: `letter_h` rows of
`len(line) * char_w` zeros, with each character's glyph written at its
offset. -/
def braillifyLineBitmap (font : Font) (letterW letterH spacing : Nat)
    (line : List Char) : List (List Nat) :=
  let charW := letterW + spacing
  let width := line.length * charW
  let bitmap := List.replicate letterH (List.replicate width 0)
  line.enum.foldl (fun bm p =>
    match font p.2 with
    | none => bm
    | some glyph => placeGlyph bm glyph (p.1 * charW) letterH letterW) bitmap

/-- `[text[i:i+n] for i in range(0, len(text), n)]` for a chunk size `n ≥ 1`
(the fuel is the text length: each step consumes at least one element). -/
def chunkListGo (n : Nat) : Nat → List Char → List (List Char)
  | 0, _ => []
  | _, [] => []
  | fuel + 1, l => l.take n :: chunkListGo n fuel (l.drop n)

/-- The line-chunking of `braillify`. -/
def chunkList (n : Nat) (l : List Char) : List (List Char) :=
  chunkListGo n l.length l

/-- Embeds the bitmap-building phase of `braillify(text)`: chunk the text at
`max(1, term_cols * 2 // char_w)` characters per line, rasterise each line,
pad every row to the widest line, and concatenate the per-line bitmaps
(`full_bitmap`). -/
def braillifyBitmap (font : Font) (letterW letterH spacing termCols : Nat)
    (text : List Char) : List (List Nat) :=
  let charW := letterW + spacing
  let charsPerLine := max 1 ((termCols * 2) / charW)
  let lines := chunkList charsPerLine text
  let bitmaps := lines.map (braillifyLineBitmap font letterW letterH spacing)
  let maxWidth := lines.foldl (fun m l => max m (l.length * charW)) 0
  (bitmaps.map (fun bm => bm.map (fun row => row ++ List.replicate (maxWidth - row.length) 0))).flatten

/-- Embeds `braillify(text, font_mode='6x8')` down to its output lines (the
6×8 font has `letter_w, letter_h, spacing = 6, 8, 1`). -/
def braillify (font : Font) (termCols : Nat) (text : List Char)
    (colorFunc : Option (Nat → Nat → Nat)) : List (List String) :=
  renderBrailleLines (braillifyBitmap font 6 8 1 termCols text) colorFunc

/-- A bitmap of `h` rows, each of length `w`. -/
def BitmapShape (bm : List (List Nat)) (h w : Nat) : Prop :=
  bm.length = h ∧ ∀ r ∈ bm, r.length = w

theorem foldl_preserve {α β : Type} (P : β → Prop) (f : β → α → β)
    (hstep : ∀ b a, P b → P (f b a)) :
    ∀ (l : List α) (init : β), P init → P (l.foldl f init) := by
  intro l
  induction l with
  | nil => intro init h0; exact h0
  | cons a rest ih => intro init h0; exact ih (f init a) (hstep init a h0)

theorem shape_set_row (bm : List (List Nat)) (h w y idx v : Nat)
    (hs : BitmapShape bm h w) :
    BitmapShape (bm.set y ((bm.getD y []).set idx v)) h w := by
  obtain ⟨hlen, hrows⟩ := hs
  by_cases hy : y < bm.length
  · constructor
    · rw [List.length_set]; exact hlen
    · intro r hr
      rcases List.mem_or_eq_of_mem_set hr with hmem | heq
      · exact hrows r hmem
      · subst heq
        rw [List.length_set, List.getD_eq_getElem bm [] hy]
        exact hrows _ (List.getElem_mem hy)
  · rw [List.set_eq_of_length_le (by omega)]
    exact ⟨hlen, hrows⟩

theorem placeGlyph_shape (glyph : List (List Nat)) (xOff letterH letterW : Nat)
    (bm : List (List Nat)) (h w : Nat) (hs : BitmapShape bm h w) :
    BitmapShape (placeGlyph bm glyph xOff letterH letterW) h w := by
  rw [placeGlyph]
  refine foldl_preserve (fun b => BitmapShape b h w) _ ?_ _ bm hs
  intro b y hb
  refine foldl_preserve (fun b2 => BitmapShape b2 h w) _ ?_ _ b hb
  intro b2 x hb2
  exact shape_set_row b2 h w y (xOff + x) ((glyph.getD y []).getD x 0) hb2

theorem braillifyLineBitmap_shape (font : Font) (letterW letterH spacing : Nat)
    (line : List Char) :
    BitmapShape (braillifyLineBitmap font letterW letterH spacing line)
      letterH (line.length * (letterW + spacing)) := by
  rw [braillifyLineBitmap]
  refine foldl_preserve
    (fun b => BitmapShape b letterH (line.length * (letterW + spacing))) _ ?_ _ _ ?_
  · intro b p hb
    cases hf : font p.2 with
    | none => exact hb
    | some glyph => exact placeGlyph_shape glyph _ letterH letterW b _ _ hb
  · constructor
    · exact List.length_replicate _ _
    · intro r hr
      rw [List.eq_of_mem_replicate hr]
      exact List.length_replicate _ _

theorem brailleW0_of_uniform :
    ∀ (bm : List (List Nat)) (w a : Nat), bm ≠ [] → (∀ r ∈ bm, r.length = w) →
      bm.foldl (fun m r => max m r.length) a = max a w := by
  intro bm
  induction bm with
  | nil => intro w a hne _; exact absurd rfl hne
  | cons r rest ih =>
      intro w a _ hrows
      rw [List.foldl_cons, hrows r (List.mem_cons_self _ _)]
      cases rest with
      | nil => simp
      | cons r2 rest2 =>
          rw [ih w (max a w) (by simp) (fun x hx => hrows x (List.mem_cons_of_mem _ hx))]
          omega

/-- C8: (general) the braille rasterizer pads the bitmap height to the next
multiple of 4 and the width to the next multiple of 2, and emits exactly
`height/4` output lines of `width/2` braille characters; (concrete) a
1-character input with the 6-wide-by-8-tall font (letter_w 6, spacing 1) on
an 80-column terminal yields a pre-padding bitmap of exactly 8 rows of width
7 = 6 + 1, whose height stays 8 after padding and whose width rounds up to
the even value 8. -/
theorem braille_pad_and_dims (bitmap : List (List Nat))
    (colorFunc : Option (Nat → Nat → Nat)) (font : Font) (c : Char) :
    ((paddedBitmap bitmap).length = padH4 bitmap.length ∧
      bitmap.length ≤ padH4 bitmap.length ∧
      padH4 bitmap.length % 4 = 0 ∧
      padH4 bitmap.length < bitmap.length + 4 ∧
      brailleW0 bitmap ≤ padW2 (brailleW0 bitmap) ∧
      padW2 (brailleW0 bitmap) % 2 = 0 ∧
      padW2 (brailleW0 bitmap) < brailleW0 bitmap + 2 ∧
      (renderBrailleLines bitmap colorFunc).length = padH4 bitmap.length / 4 ∧
      ∀ l ∈ renderBrailleLines bitmap colorFunc,
        l.length = padW2 (brailleW0 bitmap) / 2) ∧
    ((braillifyBitmap font 6 8 1 80 [c]).length = 8 ∧
      (∀ row ∈ braillifyBitmap font 6 8 1 80 [c], row.length = 7) ∧
      brailleW0 (braillifyBitmap font 6 8 1 80 [c]) = 7 ∧
      padH4 (braillifyBitmap font 6 8 1 80 [c]).length = 8 ∧
      padW2 (brailleW0 (braillifyBitmap font 6 8 1 80 [c])) = 8) := by
  have hpadded : (paddedBitmap bitmap).length = padH4 bitmap.length := by
    rw [paddedBitmap, padH4]
    split_ifs with hw h4 h4 <;>
      simp [List.length_append, List.length_map, List.length_replicate]
  have hbm : braillifyBitmap font 6 8 1 80 [c] =
      (braillifyLineBitmap font 6 8 1 [c]).map
        (fun row => row ++ List.replicate (7 - row.length) 0) := by
    simp only [braillifyBitmap, chunkList, chunkListGo]
    norm_num
  have hshape := braillifyLineBitmap_shape font 6 8 1 [c]
  rw [show [c].length * (6 + 1) = 7 by norm_num] at hshape
  obtain ⟨hlen8, hrows7⟩ := hshape
  have hbmlen : (braillifyBitmap font 6 8 1 80 [c]).length = 8 := by
    rw [hbm, List.length_map, hlen8]
  have hbmrows : ∀ row ∈ braillifyBitmap font 6 8 1 80 [c], row.length = 7 := by
    intro row hrow
    rw [hbm] at hrow
    obtain ⟨r, hr, hre⟩ := List.mem_map.1 hrow
    subst hre
    rw [List.length_append, List.length_replicate, hrows7 r hr]
  have hbmw : brailleW0 (braillifyBitmap font 6 8 1 80 [c]) = 7 := by
    rw [brailleW0, brailleW0_of_uniform _ 7 0 ?_ hbmrows]
    · omega
    · intro hnil
      have := congrArg List.length hnil
      rw [hbmlen] at this
      simp at this
  refine ⟨⟨hpadded, ?_, ?_, ?_, ?_, ?_, ?_, ?_, ?_⟩, hbmlen, hbmrows, hbmw, ?_, ?_⟩
  · rw [padH4]; split <;> omega
  · rw [padH4]; split <;> omega
  · rw [padH4]; split <;> omega
  · rw [padW2]; split <;> omega
  · rw [padW2]; split <;> omega
  · rw [padW2]; split <;> omega
  · rw [renderBrailleLines]
    simp [List.length_map, List.length_range]
  · intro l hl
    rw [renderBrailleLines] at hl
    simp only [List.mem_map, List.mem_range] at hl
    obtain ⟨i, _, hil⟩ := hl
    rw [← hil]
    simp [List.length_map, List.length_range]
  · rw [hbmlen]; decide
  · rw [hbmw]; decide
